import Mathlib

/-!
Plainly: a verified model of the translation pipeline.

This file gives a shallow embedding of the Plainly web-page translation
extension: the language classifier and text-node filters
(extension/src/content/text-extractor.ts), the batching scheduler and
in-flight bookkeeping (extension/src/content/content-script.ts), the remote
translation boundary (api/translate.ts) and the GET_STATUS message surface
(background/service-worker.ts and the content script).

Strings are treated as sequences of Unicode code points, and the
floating-point ratio comparisons of the source are embedded as exact
rational comparisons; the thresholds (0.6, 0.3, 0.5, 0.1) are far enough
from every realizable count ratio for the two semantics to coincide.
-/

namespace Plainly

/-! Constants, from extension/src/shared/constants.ts. -/

def MIN_TEXT_LENGTH : Nat := 2

def MAX_TEXT_LENGTH : Nat := 5000

def MAX_TEXTS_PER_REQUEST : Nat := 8

def MAX_CONCURRENT_REQUESTS : Nat := 6

def SKIP_TAGS : List String :=
  ["SCRIPT", "STYLE", "NOSCRIPT", "IFRAME", "OBJECT",
   "EMBED", "SVG", "CANVAS", "VIDEO", "AUDIO", "CODE",
   "PRE", "KBD", "VAR", "SAMP", "TEXTAREA", "INPUT"]

/-! Language codes, from extension/src/shared/types.ts; `Detected` is the
return type `LanguageCode | 'mixed'` of `TextExtractor.detectLanguage`. -/

inductive LanguageCode
  | en | ko | ja | zh | es | fr | de
deriving DecidableEq, Repr

inductive Detected
  | lang (c : LanguageCode)
  | mixed
deriving DecidableEq, Repr

/-! Character classes: the regex character classes used by
`text-extractor.ts`.  The ranges are the code-point ranges of the regex
literals: Hangul syllables U+AC00 to U+D7A3, kana U+3040 to U+309F and
U+30A0 to U+30FF, CJK ideographs U+4E00 to U+9FFF, Latin a-z, A-Z and
U+00C0 to U+00FF. -/

def isHangulChar (c : Char) : Bool :=
  0xAC00 ≤ c.toNat && c.toNat ≤ 0xD7A3

def isKanaChar (c : Char) : Bool :=
  (0x3040 ≤ c.toNat && c.toNat ≤ 0x309F) || (0x30A0 ≤ c.toNat && c.toNat ≤ 0x30FF)

def isCjkChar (c : Char) : Bool :=
  0x4E00 ≤ c.toNat && c.toNat ≤ 0x9FFF

def isLatinChar (c : Char) : Bool :=
  ('a' ≤ c && c ≤ 'z') || ('A' ≤ c && c ≤ 'Z') || (0xC0 ≤ c.toNat && c.toNat ≤ 0xFF)

/-! The per-script counts and ratios computed by
`TextExtractor.detectLanguage` (text-extractor.ts lines 112-122). -/

def hangulCount (text : String) : Nat := text.data.countP isHangulChar

def kanaCount (text : String) : Nat := text.data.countP isKanaChar

def cjkCount (text : String) : Nat := text.data.countP isCjkChar

def latinCount (text : String) : Nat := text.data.countP isLatinChar

def classifiableTotal (text : String) : Nat :=
  hangulCount text + kanaCount text + cjkCount text + latinCount text

/-! The ratio comparisons of the source (`koreanRatio > 0.6` and so on) are
embedded division-free: `count / total > a/10` is written
`10 * count > a * total`, exact over the rationals because `total > 0` on
every branch that compares.  The `ratio` definitions below are the literal
quotients; the claim theorems prove the division-free guards equivalent to
them. -/

def hangulRatio (text : String) : ℚ := hangulCount text / classifiableTotal text

def kanaRatio (text : String) : ℚ := kanaCount text / classifiableTotal text

def cjkRatio (text : String) : ℚ := cjkCount text / classifiableTotal text

/-- `TextExtractor.detectLanguage` (text-extractor.ts lines 111-130). -/
def detectLanguage (text : String) : Detected :=
  if classifiableTotal text = 0 then .mixed
  else if 10 * hangulCount text > 6 * classifiableTotal text then .lang .ko
  else if 10 * kanaCount text > 3 * classifiableTotal text then .lang .ja
  else if 10 * cjkCount text > 5 * classifiableTotal text ∧
      10 * kanaCount text < 1 * classifiableTotal text then .lang .zh
  else if 10 * hangulCount text < 1 * classifiableTotal text ∧
      10 * kanaCount text < 1 * classifiableTotal text ∧
      10 * cjkCount text < 1 * classifiableTotal text then
    .lang .en
  else .mixed

/-- `TextExtractor.isSourceLanguage` (text-extractor.ts lines 132-136). -/
def isSourceLanguage (text : String) (sourceLang : LanguageCode) : Bool :=
  match detectLanguage text with
  | .mixed => true
  | .lang detected => detected == sourceLang

/-! Text extractor model (extension/src/content/text-extractor.ts).  A text
node reaching the extractor is modelled by the data the filters consult:
the parent element's tag name and editability, the node's raw text, the
parent's computed style, and the parent's bounding client rect.  The
`instanceof HTMLInputElement / HTMLTextAreaElement / HTMLSelectElement`
checks are modelled by the corresponding tag names. -/

structure Style where
  display : String
  visibility : String
  opacity : String
deriving DecidableEq, Repr

structure Rect where
  width : ℚ
  height : ℚ
deriving DecidableEq, Repr

structure CandidateNode where
  parentTag : String
  parentEditable : Bool
  text : String
  style : Style
  rect : Rect
deriving DecidableEq, Repr

def isInputLikeTag (tag : String) : Bool :=
  tag == "INPUT" || tag == "TEXTAREA" || tag == "SELECT"

/-- `String.prototype.trim`: strip leading and trailing whitespace. -/
def jsTrim (s : String) : String :=
  ⟨((s.data.dropWhile Char.isWhitespace).reverse.dropWhile Char.isWhitespace).reverse⟩

/-- The character class `[a-zA-Z가-힣]` of `TextExtractor.isNonTranslatable`. -/
def isTranslatableLetterChar (c : Char) : Bool :=
  ('a' ≤ c && c ≤ 'z') || ('A' ≤ c && c ≤ 'Z') || isHangulChar c

def translatableLetterCount (text : String) : Nat :=
  text.data.countP isTranslatableLetterChar

/-- `TextExtractor.isNonTranslatable` (text-extractor.ts lines 106-109):
`letterCount / text.length < 0.3`, embedded division-free
(`10 * letterCount < 3 * length`); it is only invoked on nonempty text. -/
def isNonTranslatable (text : String) : Bool :=
  10 * translatableLetterCount text < 3 * text.length

/-- `TextExtractor.filterTextNode` (text-extractor.ts lines 63-91). -/
def filterTextNode (n : CandidateNode) : Bool :=
  !SKIP_TAGS.contains n.parentTag &&
  !n.parentEditable &&
  !isInputLikeTag n.parentTag &&
  (jsTrim n.text) != "" &&
  !isNonTranslatable (jsTrim n.text)

/-- `TextExtractor.isElementVisible` (text-extractor.ts lines 93-104).  Note
the source rejects only when `rect.width === 0 && rect.height === 0`. -/
def isElementVisible (style : Style) (rect : Rect) : Bool :=
  !(style.display == "none") &&
  !(style.visibility == "hidden") &&
  !(style.opacity == "0") &&
  !(rect.width == 0 && rect.height == 0)

/-- The walker loop of `TextExtractor.extractFromNode` (text-extractor.ts
lines 31-49): a text node is yielded when the walker filter accepted it,
its trimmed length is within bounds, and its parent element is visible. -/
def extractorYields (n : CandidateNode) : Bool :=
  filterTextNode n &&
  decide (MIN_TEXT_LENGTH ≤ (jsTrim n.text).length) &&
  decide ((jsTrim n.text).length ≤ MAX_TEXT_LENGTH) &&
  isElementVisible n.style n.rect

/-! Claim-side renderings of the extraction filter for the refinement claim
about `extractorYields`.  `claimEligible` follows the claim's words, reading
"occupies zero screen area" as `width * height = 0`; `claimEligibleAmended`
replaces that clause by the source's `width = 0 AND height = 0` test.  Both
are stated over the same `CandidateNode` data. -/

def claimEligibleCommon (n : CandidateNode) : Prop :=
  SKIP_TAGS.contains n.parentTag = false ∧
  n.parentEditable = false ∧
  isInputLikeTag n.parentTag = false ∧
  MIN_TEXT_LENGTH ≤ (jsTrim n.text).length ∧
  (jsTrim n.text).length ≤ MAX_TEXT_LENGTH ∧
  n.style.display ≠ "none" ∧
  n.style.visibility ≠ "hidden" ∧
  n.style.opacity ≠ "0" ∧
  (3 : ℚ)/10 ≤ (translatableLetterCount (jsTrim n.text) : ℚ) / ((jsTrim n.text).length : ℚ)

def claimEligible (n : CandidateNode) : Prop :=
  claimEligibleCommon n ∧ n.rect.width * n.rect.height ≠ 0

def claimEligibleAmended (n : CandidateNode) : Prop :=
  claimEligibleCommon n ∧ ¬(n.rect.width = 0 ∧ n.rect.height = 0)

/-! Batch scheduler and in-flight bookkeeping
(extension/src/content/content-script.ts, `translateNodesParallel`).
A `TNode` stands for a `TextNodeInfo`: the `id` is the identity of the
underlying DOM `Text` node (the key of the `translatingNodes` set) and
`originalText` its trimmed text. -/

structure TNode where
  id : Nat
  originalText : String
deriving DecidableEq, Repr

/-- The filter of `translateNodesParallel` (content-script.ts lines
144-147): drop nodes already in flight, keep those passing the
source-language gate. -/
def tnpFilter (inFlight : Finset Nat) (sourceLang : LanguageCode)
    (nodes : List TNode) : List TNode :=
  nodes.filter fun n =>
    !(decide (n.id ∈ inFlight)) && isSourceLanguage n.originalText sourceLang

/-- `newNodes.forEach((n) => this.translatingNodes.add(n.node))`
(content-script.ts line 150). -/
def tnpMark (inFlight : Finset Nat) (newNodes : List TNode) : Finset Nat :=
  newNodes.foldl (fun s n => insert n.id s) inFlight

/-- The `finally` clause
`newNodes.forEach((n) => this.translatingNodes.delete(n.node))`
(content-script.ts line 220). -/
def tnpUnmark (inFlight : Finset Nat) (newNodes : List TNode) : Finset Nat :=
  newNodes.foldl (fun s n => s.erase n.id) inFlight

/-- Outcome of the `try` body of `translateNodesParallel`: it either
resolves or rejects. -/
inductive BodyOutcome
  | ok
  | thrown
deriving DecidableEq, Repr

/-- The in-flight set as left by one invocation of
`translateNodesParallel` (content-script.ts lines 143-222): filter, early
return on no new nodes, mark all new nodes, run the body, and unmark in a
`finally` that runs on success and on throw alike. -/
def translateNodesParallelFlight (inFlight : Finset Nat)
    (sourceLang : LanguageCode) (nodes : List TNode)
    (outcome : BodyOutcome) : Finset Nat :=
  let newNodes := tnpFilter inFlight sourceLang nodes
  if newNodes.isEmpty then inFlight
  else
    match outcome with
    | .ok => tnpUnmark (tnpMark inFlight newNodes) newNodes
    | .thrown => tnpUnmark (tnpMark inFlight newNodes) newNodes

/-! Batch partitioning and windowing.  `chunkList k` embeds the slice
loops of content-script.ts: lines 178-182 (`i += MAX_TEXTS_PER_REQUEST`,
`uncached.slice(i, i + MAX_TEXTS_PER_REQUEST)`) and lines 214-217
(`i += MAX_CONCURRENT_REQUESTS`, `batches.slice(...)`).  The recursion is
fueled by the length of the list. -/

def chunksAux (k : Nat) : Nat → List α → List (List α)
  | _, [] => []
  | 0, _ :: _ => []
  | fuel + 1, x :: xs => (x :: xs).take k :: chunksAux k fuel ((x :: xs).drop k)

def chunkList (k : Nat) (xs : List α) : List (List α) :=
  chunksAux k xs.length xs

/-- The batch-building loop of `translateNodesParallel` (content-script.ts
lines 176-182). -/
def mkBatches (uncached : List α) : List (List α) :=
  chunkList MAX_TEXTS_PER_REQUEST uncached

/-- The window loop of `translateNodesParallel` (content-script.ts lines
214-217). -/
def mkWindows (batches : List α) : List (List α) :=
  chunkList MAX_CONCURRENT_REQUESTS batches

/-! A timeline for the window loop: within a window every batch is
launched, then `Promise.all` awaits them all before the next window
starts, so all launches of a window precede all its resolutions, which
precede every event of later windows.  `peakOutstanding` computes the
maximum number of launched-but-unresolved provider calls over the whole
timeline. -/

inductive SchedEvent (β : Type)
  | launch (b : β)
  | resolve (b : β)

def windowEvents (w : List β) : List (SchedEvent β) :=
  w.map .launch ++ w.map .resolve

def scheduleEvents (ws : List (List β)) : List (SchedEvent β) :=
  (ws.map windowEvents).flatten

def peakOutstanding : List (SchedEvent β) → Nat → Nat
  | [], current => current
  | .launch _ :: es, current => max current (peakOutstanding es (current + 1))
  | .resolve _ :: es, current => max current (peakOutstanding es (current - 1))

/-! Pipeline enable/disable state machine (content-script.ts).  The
document is an abstract type `δ` mutated only by the applier
(`domTranslator.applyTranslations`, modelled by an arbitrary `applyT`) and
the restorer (`domTranslator.restoreOriginal`, modelled by `restoreT`).
A batch payload is an abstract `β`. -/

structure PipeState (δ : Type) where
  enabled : Bool
  doc : δ

inductive PipeEvent (β : Type)
  | disable
  | enable
  | cachedHit (b : β)
  | batchResult (b : β)

/-- One pipeline transition.  `disable` (content-script.ts lines 98-107)
early-returns when already disabled, else clears the flag and restores;
`enable` (lines 90-96) early-returns when already enabled; a cached hit is
applied only under the `if (this.isEnabled)` guard of line 170, and a
resolved remote batch only under the guard of line 208. -/
def pipeStep (applyT : δ → β → δ) (restoreT : δ → δ) (s : PipeState δ) :
    PipeEvent β → PipeState δ
  | .disable => if s.enabled then { enabled := false, doc := restoreT s.doc } else s
  | .enable => if s.enabled then s else { s with enabled := true }
  | .cachedHit b => if s.enabled then { s with doc := applyT s.doc b } else s
  | .batchResult b => if s.enabled then { s with doc := applyT s.doc b } else s

/-- A completion event: `true` tags the cached-hit application path,
`false` the remote-batch application path. -/
def completionEvent (c : Bool × β) : PipeEvent β :=
  if c.1 then .cachedHit c.2 else .batchResult c.2

def runCompletions (applyT : δ → β → δ) (restoreT : δ → δ)
    (s : PipeState δ) (cs : List (Bool × β)) : PipeState δ :=
  cs.foldl (fun st c => pipeStep applyT restoreT st (completionEvent c)) s

/-! The remote translation boundary (api/translate.ts).  The provider call
`translateWithDeepSeek` is an external collaborator: it is a parameter
returning either a list of translated strings or a thrown error message
(which also covers the missing-API-key configuration error). -/

structure TranslatedText where
  original : String
  translated : String
deriving DecidableEq, Repr

structure ApiRequest where
  method : String
  /-- `req.body.texts`; `none` models a value failing `Array.isArray`. -/
  texts : Option (List String)
  /-- `req.body.sourceLang`; the empty string models a missing (falsy) code. -/
  sourceLang : String
  targetLang : String
deriving DecidableEq, Repr

inductive ApiResult
  /-- `res.status(n).end()` -/
  | empty (status : Nat)
  /-- `res.status(n).json(...)` -/
  | json (status : Nat) (success : Bool) (data : Option (List TranslatedText))
      (error : Option String)
deriving DecidableEq, Repr

/-- `translations[index] || original` (api/translate.ts line 135): an
absent entry and an empty-string entry both fall back to the original. -/
def orElseOriginal (translations : List String) (i : Nat) (original : String) :
    String :=
  match translations[i]? with
  | none => original
  | some t => if t = "" then original else t

/-- The index-carrying traversal of
`texts.map((original, index) => ...)` (api/translate.ts lines 133-136). -/
def buildDataAux (translations : List String) (i : Nat) :
    List String → List TranslatedText
  | [] => []
  | original :: texts =>
    ⟨original, orElseOriginal translations i original⟩ ::
      buildDataAux translations (i + 1) texts

/-- `texts.map((original, index) => ...)` (api/translate.ts lines 133-136). -/
def buildData (texts translations : List String) : List TranslatedText :=
  buildDataAux translations 0 texts

/-- The Vercel handler (api/translate.ts lines 95-149).  The second
component of the result records whether the provider was invoked. -/
def handler (provider : List String → String → String → Except String (List String))
    (req : ApiRequest) : ApiResult × Bool :=
  if req.method = "OPTIONS" then (.empty 200, false)
  else if req.method ≠ "POST" then
    (.json 405 false none (some "Method not allowed"), false)
  else
    match req.texts with
    | none => (.json 400 false none (some "texts array is required"), false)
    | some texts =>
      if texts.length = 0 then
        (.json 400 false none (some "texts array is required"), false)
      else if texts.length > 50 then
        (.json 400 false none (some "Maximum 50 texts per request"), false)
      else if req.sourceLang = "" ∨ req.targetLang = "" then
        (.json 400 false none (some "sourceLang and targetLang are required"), false)
      else
        match provider texts req.sourceLang req.targetLang with
        | .error msg => (.json 500 false none (some msg), true)
        | .ok translations =>
          (.json 200 true (some (buildData texts translations)) none, true)

/-! The GET_STATUS message surface. -/

structure TranslationSettings where
  sourceLang : LanguageCode
  targetLang : LanguageCode
  autoTranslate : Bool
deriving DecidableEq, Repr

structure TranslationStatus where
  isTranslated : Bool
  count : Nat
  autoTranslate : Bool
deriving DecidableEq, Repr

/-- Modelled from the spec: `domTranslator.getStatus` lives in
extension/src/content/dom-translator.ts, which is not among the provided
sources.  Spec 4.5: "`getStatus()` reports whether any translation is
currently applied and how many units are affected."  Its state is
abstracted to `translatedUnits`, the number of units currently displaying
translated text. -/
def domTranslatorGetStatus (translatedUnits : Nat) : Bool × Nat :=
  (decide (0 < translatedUnits), translatedUnits)

/-- The content script's GET_STATUS branch (content-script.ts lines
51-58): spread `domTranslator.getStatus()` and add
`autoTranslate: this.isEnabled`. -/
def contentGetStatusResponse (translatedUnits : Nat) (isEnabled : Bool) :
    TranslationStatus :=
  { isTranslated := (domTranslatorGetStatus translatedUnits).1
    count := (domTranslatorGetStatus translatedUnits).2
    autoTranslate := isEnabled }

/-- `getStatus` in background/service-worker.ts lines 76-83: constant
`isTranslated: false, count: 0` with the stored autoTranslate flag. -/
def backgroundGetStatusResponse (settings : TranslationSettings) :
    TranslationStatus :=
  { isTranslated := false
    count := 0
    autoTranslate := settings.autoTranslate }

/-- A GET_STATUS request is answered by whichever listener receives it:
the content script (tab messages) or the background service worker
(runtime messages); both register a handler for the message type. -/
inductive StatusReceiver
  | content
  | background
deriving DecidableEq, Repr

def getStatusResponse (r : StatusReceiver) (translatedUnits : Nat)
    (isEnabled : Bool) (settings : TranslationSettings) : TranslationStatus :=
  match r with
  | .content => contentGetStatusResponse translatedUnits isEnabled
  | .background => backgroundGetStatusResponse settings

/-! Helper lemmas: exact-arithmetic forms of the ratio thresholds. -/

lemma ratio_gt_ten (a k t : ℕ) (ht : t ≠ 0) :
    (a : ℚ) / 10 < (k : ℚ) / (t : ℚ) ↔ a * t < 10 * k := by
  have ht' : (0 : ℚ) < (t : ℚ) := by exact_mod_cast Nat.pos_of_ne_zero ht
  rw [div_lt_div_iff₀ (by norm_num) ht']
  constructor
  · intro h
    have hn : a * t < k * 10 := by exact_mod_cast h
    omega
  · intro h
    have hn : a * t < k * 10 := by omega
    exact_mod_cast hn

lemma ratio_lt_ten (a k t : ℕ) (ht : t ≠ 0) :
    (k : ℚ) / (t : ℚ) < (a : ℚ) / 10 ↔ 10 * k < a * t := by
  have ht' : (0 : ℚ) < (t : ℚ) := by exact_mod_cast Nat.pos_of_ne_zero ht
  rw [div_lt_div_iff₀ ht' (by norm_num)]
  constructor
  · intro h
    have hn : k * 10 < a * t := by exact_mod_cast h
    omega
  · intro h
    have hn : k * 10 < a * t := by omega
    exact_mod_cast hn

lemma ratio_le_ten (a k t : ℕ) (ht : t ≠ 0) :
    (a : ℚ) / 10 ≤ (k : ℚ) / (t : ℚ) ↔ a * t ≤ 10 * k := by
  have ht' : (0 : ℚ) < (t : ℚ) := by exact_mod_cast Nat.pos_of_ne_zero ht
  rw [div_le_div_iff₀ (by norm_num) ht']
  constructor
  · intro h
    have hn : a * t ≤ k * 10 := by exact_mod_cast h
    omega
  · intro h
    have hn : a * t ≤ k * 10 := by omega
    exact_mod_cast hn

/-! Helper lemmas: the fold forms of the in-flight set updates. -/

lemma tnpMark_eq (S : Finset ℕ) (l : List TNode) :
    tnpMark S l = S ∪ (l.map TNode.id).toFinset := by
  induction l generalizing S with
  | nil => simp [tnpMark]
  | cons n l ih =>
    show tnpMark (insert n.id S) l = _
    rw [ih]
    ext a
    simp [Finset.mem_union, Finset.mem_insert]
    try tauto

lemma tnpUnmark_eq (S : Finset ℕ) (l : List TNode) :
    tnpUnmark S l = S \ (l.map TNode.id).toFinset := by
  induction l generalizing S with
  | nil => simp [tnpUnmark]
  | cons n l ih =>
    show tnpUnmark (S.erase n.id) l = _
    rw [ih]
    ext a
    simp [Finset.mem_sdiff, Finset.mem_erase]
    try tauto

/-! Helper lemmas: the chunking loops. -/

lemma chunksAux_flatten {α : Type} (k : ℕ) (hk : 0 < k) :
    ∀ (fuel : ℕ) (xs : List α), xs.length ≤ fuel →
      (chunksAux k fuel xs).flatten = xs := by
  intro fuel
  induction fuel with
  | zero =>
    intro xs hxs
    have : xs = [] := List.length_eq_zero.mp (Nat.le_zero.mp hxs)
    subst this
    rfl
  | succ fuel ih =>
    intro xs hxs
    match xs with
    | [] => rfl
    | x :: xs =>
      have hlen : ((x :: xs).drop k).length ≤ fuel := by
        simp only [List.length_drop, List.length_cons]
        simp only [List.length_cons] at hxs
        omega
      simp only [chunksAux, List.flatten_cons, ih _ hlen, List.take_append_drop]

lemma chunksAux_length_le {α : Type} (k fuel : ℕ) (xs : List α) :
    ∀ b ∈ chunksAux k fuel xs, b.length ≤ k := by
  induction fuel generalizing xs with
  | zero => cases xs <;> simp [chunksAux]
  | succ fuel ih =>
    cases xs with
    | nil => simp [chunksAux]
    | cons x xs =>
      intro b hb
      simp only [chunksAux, List.mem_cons] at hb
      rcases hb with hb | hb
      · subst hb
        exact List.length_take_le _ _
      · exact ih _ b hb

lemma chunksAux_nil_iff {α : Type} (k fuel : ℕ) (xs : List α)
    (hxs : xs.length ≤ fuel) : chunksAux k fuel xs = [] ↔ xs = [] := by
  cases xs with
  | nil => cases fuel <;> simp [chunksAux]
  | cons x xs =>
    cases fuel with
    | zero => simp at hxs
    | succ fuel => simp [chunksAux]

lemma chunksAux_dropLast {α : Type} (k : ℕ) (hk : 0 < k) :
    ∀ (fuel : ℕ) (xs : List α), xs.length ≤ fuel →
      ∀ b ∈ (chunksAux k fuel xs).dropLast, b.length = k := by
  intro fuel
  induction fuel with
  | zero =>
    intro xs hxs
    have : xs = [] := List.length_eq_zero.mp (Nat.le_zero.mp hxs)
    subst this
    simp [chunksAux]
  | succ fuel ih =>
    intro xs hxs
    match xs with
    | [] => simp [chunksAux]
    | x :: xs =>
      have hlen : ((x :: xs).drop k).length ≤ fuel := by
        simp only [List.length_drop, List.length_cons]
        simp only [List.length_cons] at hxs
        omega
      intro b hb
      simp only [chunksAux] at hb
      by_cases hrest : chunksAux k fuel ((x :: xs).drop k) = []
      · rw [hrest] at hb
        simp at hb
      · rw [List.dropLast_cons_of_ne_nil hrest, List.mem_cons] at hb
        rcases hb with hb | hb
        · subst hb
          have hne : (x :: xs).drop k ≠ [] := by
            intro hd
            exact hrest (by simp [hd, chunksAux])
          have hklen : k < (x :: xs).length := by
            by_contra hle
            exact hne (List.drop_eq_nil_of_le (by omega))
          simp only [List.length_take, List.length_cons]
          simp only [List.length_cons] at hklen
          omega
        · exact ih _ hlen b hb

/-! Helper lemmas: the outstanding-call timeline. -/

lemma peak_ge {β : Type} (es : List (SchedEvent β)) (c : ℕ) :
    c ≤ peakOutstanding es c := by
  induction es generalizing c with
  | nil => exact le_refl c
  | cons e es ih =>
    cases e <;> exact le_max_left _ _

lemma peak_launch_block {β : Type} (l : List β) (es : List (SchedEvent β))
    (c : ℕ) :
    peakOutstanding (l.map SchedEvent.launch ++ es) c =
      peakOutstanding es (c + l.length) := by
  induction l generalizing c with
  | nil => simp
  | cons b l ih =>
    rw [List.map_cons, List.cons_append]
    show max c (peakOutstanding (l.map SchedEvent.launch ++ es) (c + 1)) = _
    rw [ih]
    have h1 : c ≤ peakOutstanding es (c + 1 + l.length) :=
      le_trans (by omega) (peak_ge es (c + 1 + l.length))
    rw [max_eq_right h1]
    congr 1
    simp only [List.length_cons]
    omega

lemma peak_resolve_block {β : Type} (l : List β) (es : List (SchedEvent β))
    (c : ℕ) :
    peakOutstanding (l.map SchedEvent.resolve ++ es) c =
      max c (peakOutstanding es (c - l.length)) := by
  induction l generalizing c with
  | nil =>
    simp only [List.map_nil, List.nil_append, List.length_nil, Nat.sub_zero]
    exact (max_eq_right (peak_ge es c)).symm
  | cons b l ih =>
    rw [List.map_cons, List.cons_append]
    show max c (peakOutstanding (l.map SchedEvent.resolve ++ es) (c - 1)) = _
    rw [ih, ← max_assoc, max_eq_left (Nat.sub_le c 1)]
    have harg : c - 1 - l.length = c - (b :: l).length := by
      simp only [List.length_cons]
      omega
    rw [harg]

lemma peak_window_block {β : Type} (w : List β) (es : List (SchedEvent β)) :
    peakOutstanding (windowEvents w ++ es) 0 =
      max w.length (peakOutstanding es 0) := by
  simp only [windowEvents, List.append_assoc]
  rw [peak_launch_block, peak_resolve_block]
  simp

lemma peak_schedule_le {β : Type} (K : ℕ) (ws : List (List β))
    (hw : ∀ w ∈ ws, w.length ≤ K) :
    peakOutstanding (scheduleEvents ws) 0 ≤ K := by
  induction ws with
  | nil => simp [scheduleEvents, peakOutstanding]
  | cons w ws ih =>
    have hsched : scheduleEvents (w :: ws) = windowEvents w ++ scheduleEvents ws := by
      simp [scheduleEvents]
    rw [hsched, peak_window_block]
    exact max_le (hw w (by simp)) (ih fun v hv => hw v (by simp [hv]))

/-! Helper lemmas: pipeline steps after disable. -/

lemma completion_noop {δ β : Type} (applyT : δ → β → δ) (restoreT : δ → δ)
    (s : PipeState δ) (hs : s.enabled = false) (c : Bool × β) :
    pipeStep applyT restoreT s (completionEvent c) = s := by
  rcases c with ⟨tag, b⟩
  cases tag <;> simp [completionEvent, pipeStep, hs]

lemma runCompletions_noop {δ β : Type} (applyT : δ → β → δ) (restoreT : δ → δ)
    (s : PipeState δ) (hs : s.enabled = false) (cs : List (Bool × β)) :
    runCompletions applyT restoreT s cs = s := by
  induction cs with
  | nil => rfl
  | cons c cs ih =>
    show runCompletions applyT restoreT
      (pipeStep applyT restoreT s (completionEvent c)) cs = s
    rw [completion_noop applyT restoreT s hs c, ih]

/-- C1: after `disable()` runs, the enabled flag is down, and every
completion of a batch that was still in flight — whether it applies
cached results (content-script.ts line 170) or remote-batch results
(line 208) — is guarded by a per-application check of the enabled flag,
so as long as no re-enable occurs, any sequence of such completions
leaves the post-disable pipeline state, document text included, entirely
unchanged. -/
theorem disable_blocks_stale_batch_applications {δ β : Type}
    (applyT : δ → β → δ) (restoreT : δ → δ) (s : PipeState δ)
    (cs : List (Bool × β)) :
    (pipeStep applyT restoreT s PipeEvent.disable).enabled = false ∧
    runCompletions applyT restoreT
        (pipeStep applyT restoreT s PipeEvent.disable) cs =
      pipeStep applyT restoreT s PipeEvent.disable := by
  have hdis : (pipeStep applyT restoreT s (PipeEvent.disable : PipeEvent β)).enabled = false := by
    simp only [pipeStep]
    split
    · rfl
    · simp_all
  exact ⟨hdis, runCompletions_noop applyT restoreT _ hdis cs⟩

/-- C2: within one invocation of `translateNodesParallel`, a node already
in the in-flight set is filtered out and not submitted again; every node
passing the filter is in the in-flight set as marked before the cache
lookup and network calls of the body; and whether the body resolves or
throws, the `finally` clause removes every node the invocation added, so
the in-flight set returns to exactly its initial value. -/
theorem inFlight_dedup_and_cleanup (inFlight : Finset ℕ)
    (sourceLang : LanguageCode) (nodes : List TNode) :
    (∀ n ∈ nodes, n.id ∈ inFlight → n ∉ tnpFilter inFlight sourceLang nodes) ∧
    (∀ n ∈ tnpFilter inFlight sourceLang nodes,
      n.id ∈ tnpMark inFlight (tnpFilter inFlight sourceLang nodes)) ∧
    (∀ outcome : BodyOutcome,
      translateNodesParallelFlight inFlight sourceLang nodes outcome = inFlight) := by
  have hmem : ∀ n ∈ tnpFilter inFlight sourceLang nodes, n.id ∉ inFlight := by
    intro n hn
    simp only [tnpFilter, List.mem_filter, Bool.and_eq_true, Bool.not_eq_true',
      decide_eq_false_iff_not] at hn
    exact hn.2.1
  refine ⟨?_, ?_, ?_⟩
  · intro n _ hin hfil
    exact hmem n hfil hin
  · intro n hn
    rw [tnpMark_eq]
    simp only [Finset.mem_union, List.mem_toFinset, List.mem_map]
    exact Or.inr ⟨n, hn, rfl⟩
  · intro outcome
    by_cases hemp : (tnpFilter inFlight sourceLang nodes).isEmpty
    · cases outcome <;> simp [translateNodesParallelFlight, hemp]
    · have hclean :
          tnpUnmark (tnpMark inFlight (tnpFilter inFlight sourceLang nodes))
            (tnpFilter inFlight sourceLang nodes) = inFlight := by
        rw [tnpUnmark_eq, tnpMark_eq]
        ext a
        simp only [Finset.mem_sdiff, Finset.mem_union, List.mem_toFinset,
          List.mem_map]
        constructor
        · rintro ⟨ha | ha, _⟩
          · exact ha
          · tauto
        · intro ha
          refine ⟨Or.inl ha, ?_⟩
          rintro ⟨n, hn, rfl⟩
          exact hmem n hn ha
      cases outcome <;> simp [translateNodesParallelFlight, hemp, hclean]

/-- C2 witness: with node 5 already in flight, the invocation on nodes 5
and 7 skips node 5, and the in-flight set after a throwing body is the
initial one. -/
theorem inFlight_dedup_and_cleanup_witness :
    ((⟨5, "Hello"⟩ : TNode) ∈ [(⟨5, "Hello"⟩ : TNode), ⟨7, "World"⟩] ∧
      (5 : ℕ) ∈ ({5} : Finset ℕ) ∧
      (⟨5, "Hello"⟩ : TNode) ∉ tnpFilter {5} .en [⟨5, "Hello"⟩, ⟨7, "World"⟩]) ∧
    translateNodesParallelFlight {5} .en [⟨5, "Hello"⟩, ⟨7, "World"⟩]
        .thrown = {5} := by
  refine ⟨⟨by decide, by decide, ?_⟩, ?_⟩
  · exact (inFlight_dedup_and_cleanup {5} .en _).1 _ (by decide) (by decide)
  · exact (inFlight_dedup_and_cleanup {5} .en _).2.2 .thrown

/-- C3: the batching loop partitions any uncached list into consecutive
ordered batches (their concatenation is the input), each of size at most
`MAX_TEXTS_PER_REQUEST = 8`, every non-final batch of size exactly 8; in
particular 20 texts produce batch sizes 8, 8, 4. -/
theorem batch_partitioning {α : Type} (uncached : List α) :
    (mkBatches uncached).flatten = uncached ∧
    (∀ b ∈ mkBatches uncached, b.length ≤ MAX_TEXTS_PER_REQUEST) ∧
    (∀ b ∈ (mkBatches uncached).dropLast, b.length = MAX_TEXTS_PER_REQUEST) ∧
    (mkBatches (List.range 20)).map List.length = [8, 8, 4] := by
  refine ⟨?_, ?_, ?_, by decide⟩
  · exact chunksAux_flatten MAX_TEXTS_PER_REQUEST (by decide) _ _ le_rfl
  · exact chunksAux_length_le _ _ _
  · exact chunksAux_dropLast _ (by decide) _ _ le_rfl

/-- C3 witness: evaluation on the 20-element list. -/
theorem batch_partitioning_witness :
    (mkBatches (List.range 20)).flatten = List.range 20 ∧
    [8, 9, 10, 11, 12, 13, 14, 15] ∈ mkBatches (List.range 20) ∧
    ([8, 9, 10, 11, 12, 13, 14, 15] : List ℕ).length ≤ MAX_TEXTS_PER_REQUEST ∧
    [0, 1, 2, 3, 4, 5, 6, 7] ∈ (mkBatches (List.range 20)).dropLast ∧
    ([0, 1, 2, 3, 4, 5, 6, 7] : List ℕ).length = MAX_TEXTS_PER_REQUEST :=
  ⟨(batch_partitioning (List.range 20)).1, by decide,
    (batch_partitioning (List.range 20)).2.1 _ (by decide), by decide,
    (batch_partitioning (List.range 20)).2.2.1 _ (by decide)⟩

/-- C4: the window loop covers all batches in order, every window holds at
most `MAX_CONCURRENT_REQUESTS = 6` batches, and on the launch/await-all
timeline of the loop the number of provider calls outstanding at any
instant never exceeds 6; in particular 10 batches run as a window of 6
followed by a window of 4. -/
theorem concurrency_ceiling {β : Type} (batches : List β) :
    (mkWindows batches).flatten = batches ∧
    (∀ w ∈ mkWindows batches, w.length ≤ MAX_CONCURRENT_REQUESTS) ∧
    peakOutstanding (scheduleEvents (mkWindows batches)) 0 ≤
      MAX_CONCURRENT_REQUESTS ∧
    (mkWindows (List.range 10)).map List.length = [6, 4] := by
  refine ⟨?_, ?_, ?_, by decide⟩
  · exact chunksAux_flatten MAX_CONCURRENT_REQUESTS (by decide) _ _ le_rfl
  · exact chunksAux_length_le _ _ _
  · exact peak_schedule_le _ _ (chunksAux_length_le _ _ _)

/-- C4 witness: evaluation on 10 batches. -/
theorem concurrency_ceiling_witness :
    peakOutstanding (scheduleEvents (mkWindows (List.range 10))) 0 ≤
      MAX_CONCURRENT_REQUESTS ∧
    [6, 7, 8, 9] ∈ mkWindows (List.range 10) ∧
    ([6, 7, 8, 9] : List ℕ).length ≤ MAX_CONCURRENT_REQUESTS :=
  ⟨(concurrency_ceiling (List.range 10)).2.2.1, by decide,
    (concurrency_ceiling (List.range 10)).2.1 _ (by decide)⟩

/-- C5: the classifier follows the script-ratio cascade: Hangul ratio above
0.6 gives Korean; else kana ratio above 0.3 gives Japanese; else CJK ratio
above 0.5 with kana ratio below 0.1 gives Chinese; else all three
non-Latin ratios below 0.1 gives English; anything else — including a text
with zero classifiable characters — is mixed. -/
theorem detectLanguage_threshold_spec (text : String) :
    (classifiableTotal text = 0 → detectLanguage text = .mixed) ∧
    (classifiableTotal text ≠ 0 →
      ((detectLanguage text = .lang .ko ↔ hangulRatio text > 6/10) ∧
       (detectLanguage text = .lang .ja ↔
         ¬ hangulRatio text > 6/10 ∧ kanaRatio text > 3/10) ∧
       (detectLanguage text = .lang .zh ↔
         ¬ hangulRatio text > 6/10 ∧ ¬ kanaRatio text > 3/10 ∧
         cjkRatio text > 5/10 ∧ kanaRatio text < 1/10) ∧
       (detectLanguage text = .lang .en ↔
         ¬ hangulRatio text > 6/10 ∧ ¬ kanaRatio text > 3/10 ∧
         ¬(cjkRatio text > 5/10 ∧ kanaRatio text < 1/10) ∧
         hangulRatio text < 1/10 ∧ kanaRatio text < 1/10 ∧
         cjkRatio text < 1/10) ∧
       (detectLanguage text = .mixed ↔
         ¬ hangulRatio text > 6/10 ∧ ¬ kanaRatio text > 3/10 ∧
         ¬(cjkRatio text > 5/10 ∧ kanaRatio text < 1/10) ∧
         ¬(hangulRatio text < 1/10 ∧ kanaRatio text < 1/10 ∧
           cjkRatio text < 1/10)))) := by
  constructor
  · intro h0
    simp [detectLanguage, h0]
  · intro ht
    have hko : (6 : ℚ)/10 < hangulRatio text ↔
        6 * classifiableTotal text < 10 * hangulCount text := by
      unfold hangulRatio
      exact_mod_cast ratio_gt_ten 6 (hangulCount text) (classifiableTotal text) ht
    have hja : (3 : ℚ)/10 < kanaRatio text ↔
        3 * classifiableTotal text < 10 * kanaCount text := by
      unfold kanaRatio
      exact_mod_cast ratio_gt_ten 3 (kanaCount text) (classifiableTotal text) ht
    have hzh : (5 : ℚ)/10 < cjkRatio text ↔
        5 * classifiableTotal text < 10 * cjkCount text := by
      unfold cjkRatio
      exact_mod_cast ratio_gt_ten 5 (cjkCount text) (classifiableTotal text) ht
    have hjl : kanaRatio text < (1 : ℚ)/10 ↔
        10 * kanaCount text < 1 * classifiableTotal text := by
      unfold kanaRatio
      exact_mod_cast ratio_lt_ten 1 (kanaCount text) (classifiableTotal text) ht
    have hkl : hangulRatio text < (1 : ℚ)/10 ↔
        10 * hangulCount text < 1 * classifiableTotal text := by
      unfold hangulRatio
      exact_mod_cast ratio_lt_ten 1 (hangulCount text) (classifiableTotal text) ht
    have hcl : cjkRatio text < (1 : ℚ)/10 ↔
        10 * cjkCount text < 1 * classifiableTotal text := by
      unfold cjkRatio
      exact_mod_cast ratio_lt_ten 1 (cjkCount text) (classifiableTotal text) ht
    simp only [detectLanguage, if_neg ht, gt_iff_lt, hko, hja, hzh, hjl, hkl, hcl]
    split_ifs with h1 h2 h3 h4 <;> refine ⟨?_, ?_, ?_, ?_, ?_⟩ <;> simp_all <;> omega

/-- C5 witness: a pure-Hangul string has nonzero classifiable total and is
classified Korean exactly because its Hangul ratio exceeds 0.6. -/
theorem detectLanguage_threshold_witness :
    classifiableTotal "안녕하세요" ≠ 0 ∧
    (detectLanguage "안녕하세요" = .lang .ko ↔ hangulRatio "안녕하세요" > 6/10) :=
  ⟨by decide, ((detectLanguage_threshold_spec "안녕하세요").2 (by decide)).1⟩

/-- C6: `isSourceLanguage` passes exactly the texts whose detected language
is mixed or equals the configured source language, and it gates admission:
an extracted node whose detected language is unambiguous and differs from
the source language never passes the filter of `translateNodesParallel`,
hence is never submitted. -/
theorem language_gating (text : String) (sourceLang : LanguageCode)
    (inFlight : Finset ℕ) (nodes : List TNode) :
    (isSourceLanguage text sourceLang = true ↔
      (detectLanguage text = .mixed ∨ detectLanguage text = .lang sourceLang)) ∧
    (∀ n ∈ nodes, detectLanguage n.originalText ≠ .mixed →
      detectLanguage n.originalText ≠ .lang sourceLang →
      n ∉ tnpFilter inFlight sourceLang nodes) := by
  constructor
  · unfold isSourceLanguage
    cases hdet : detectLanguage text with
    | mixed => simp
    | lang c => simp
  · intro n _ hmix hlang hfil
    simp only [tnpFilter, List.mem_filter, Bool.and_eq_true] at hfil
    have hsl : isSourceLanguage n.originalText sourceLang = true := hfil.2.2
    unfold isSourceLanguage at hsl
    cases hdet : detectLanguage n.originalText with
    | mixed => exact hmix hdet
    | lang c =>
      rw [hdet] at hsl
      have hc : c = sourceLang := by simpa using hsl
      exact hlang (by rw [hdet, hc])

/-- C6 witness: Korean text with English source language is rejected by the
predicate and filtered out of the scheduling pipeline. -/
theorem language_gating_witness :
    (isSourceLanguage "안녕하세요" .en = true ↔
      (detectLanguage "안녕하세요" = .mixed ∨
        detectLanguage "안녕하세요" = .lang .en)) ∧
    (⟨1, "안녕하세요"⟩ : TNode) ∈ [(⟨1, "안녕하세요"⟩ : TNode)] ∧
    (⟨1, "안녕하세요"⟩ : TNode) ∉ tnpFilter ∅ .en [⟨1, "안녕하세요"⟩] := by
  refine ⟨(language_gating "안녕하세요" .en ∅ [⟨1, "안녕하세요"⟩]).1, by decide, ?_⟩
  exact (language_gating "안녕하세요" .en ∅ [⟨1, "안녕하세요"⟩]).2 _
    (by decide) (by decide) (by decide)

/-! Helper lemmas for the extractor and boundary claims. -/

lemma string_length_eq_zero (s : String) : s.length = 0 ↔ s = "" := by
  cases s with
  | mk data =>
    show data.length = 0 ↔ _
    rw [List.length_eq_zero]
    constructor
    · intro h
      rw [h]
    · intro h
      exact congrArg String.data h

lemma buildDataAux_length (translations : List String) :
    ∀ (texts : List String) (i : ℕ),
      (buildDataAux translations i texts).length = texts.length := by
  intro texts
  induction texts with
  | nil => intro i; rfl
  | cons t ts ih =>
    intro i
    simp only [buildDataAux, List.length_cons, ih]

lemma buildDataAux_getElem (translations : List String) :
    ∀ (texts : List String) (start i : ℕ),
      (buildDataAux translations start texts)[i]? =
        (texts[i]?).map
          (fun t => (⟨t, orElseOriginal translations (start + i) t⟩ :
            TranslatedText)) := by
  intro texts
  induction texts with
  | nil => intro start i; simp [buildDataAux]
  | cons t ts ih =>
    intro start i
    cases i with
    | zero => simp [buildDataAux]
    | succ i =>
      simp only [buildDataAux, List.getElem?_cons_succ, ih (start + 1) i]
      have harg : start + 1 + i = start + (i + 1) := by omega
      rw [harg]

/-- C7 (counterexample): reading "occupies zero screen area" as
`width * height = 0`, the claimed filter equivalence fails on a visible
node whose rect is 0 wide but 5 tall: the source yields it (only
`width = 0 AND height = 0` rects are rejected) while its screen area is
zero. -/
theorem extractor_zero_area_counterexample :
    ¬ (extractorYields
        ⟨"P", false, "Hello", ⟨"block", "visible", "1"⟩, ⟨0, 5⟩⟩ = true ↔
      claimEligible ⟨"P", false, "Hello", ⟨"block", "visible", "1"⟩, ⟨0, 5⟩⟩) := by
  intro h
  have hy : extractorYields
      ⟨"P", false, "Hello", ⟨"block", "visible", "1"⟩, ⟨0, 5⟩⟩ = true := by decide
  have hcl := h.mp hy
  exact hcl.2 (by norm_num)

/-- C7 (amended): the extractor yields a text node exactly when the
structural, length, style-visibility and letter-ratio filters all pass and
the rect is not zero in both dimensions (the source rejects only
`width = 0 AND height = 0`, not every zero-area rect). -/
theorem extractor_filters_amended (n : CandidateNode) :
    extractorYields n = true ↔ claimEligibleAmended n := by
  have hbridge : ∀ _ : (jsTrim n.text).length ≠ 0,
      ((3 : ℚ)/10 ≤ (translatableLetterCount (jsTrim n.text) : ℚ) /
          ((jsTrim n.text).length : ℚ) ↔
        3 * (jsTrim n.text).length ≤
          10 * translatableLetterCount (jsTrim n.text)) := by
    intro hl
    exact_mod_cast ratio_le_ten 3 (translatableLetterCount (jsTrim n.text))
      ((jsTrim n.text).length) hl
  constructor
  · intro h
    simp only [extractorYields, filterTextNode, isElementVisible,
      Bool.and_eq_true, Bool.not_eq_true', bne_iff_ne, decide_eq_true_eq,
      beq_eq_false_iff_ne, isNonTranslatable, decide_eq_false_iff_not,
      Nat.not_lt, Bool.and_eq_false_iff, and_assoc] at h
    obtain ⟨htag, hedit, hinput, hne, hnt, hmin, hmax, hd, hv, ho, hwh⟩ := h
    have hl : (jsTrim n.text).length ≠ 0 := by
      simp only [MIN_TEXT_LENGTH] at hmin
      omega
    unfold claimEligibleAmended claimEligibleCommon
    refine ⟨⟨htag, hedit, hinput, hmin, hmax, hd, hv, ho, (hbridge hl).mpr hnt⟩, ?_⟩
    rcases hwh with hw | hh
    · rintro ⟨h1, _⟩
      exact hw h1
    · rintro ⟨_, h2⟩
      exact hh h2
  · intro h
    unfold claimEligibleAmended claimEligibleCommon at h
    obtain ⟨⟨htag, hedit, hinput, hmin, hmax, hd, hv, ho, hrat⟩, hwh⟩ := h
    have hl : (jsTrim n.text).length ≠ 0 := by
      simp only [MIN_TEXT_LENGTH] at hmin
      omega
    simp only [extractorYields, filterTextNode, isElementVisible,
      Bool.and_eq_true, Bool.not_eq_true', bne_iff_ne, decide_eq_true_eq,
      beq_eq_false_iff_ne, isNonTranslatable, decide_eq_false_iff_not,
      Nat.not_lt, Bool.and_eq_false_iff, and_assoc]
    refine ⟨htag, hedit, hinput, ?_, (hbridge hl).mp hrat, hmin, hmax,
      hd, hv, ho, ?_⟩
    · intro he
      exact hl ((string_length_eq_zero _).mpr he)
    · by_cases hw : n.rect.width = 0
      · refine Or.inr fun h2 => hwh ⟨hw, h2⟩
      · exact Or.inl hw

/-- C8: a POST request with a missing or empty texts list, more than 50
texts, or a missing language code is answered with a structured failure
(status 400, `success: false`, an error message) and the provider is never
invoked. -/
theorem boundary_validation
    (provider : List String → String → String → Except String (List String))
    (req : ApiRequest) (hpost : req.method = "POST")
    (hbad : req.texts = none ∨ req.texts = some [] ∨
      (∃ ts, req.texts = some ts ∧ ts.length > 50) ∨
      req.sourceLang = "" ∨ req.targetLang = "") :
    (∃ e, (handler provider req).1 = ApiResult.json 400 false none (some e)) ∧
    (handler provider req).2 = false := by
  rcases hbad with h | h | ⟨ts, hts, hlen⟩ | h | h
  · simp [handler, hpost, h]
  · simp [handler, hpost, h]
  · have h0 : ts.length ≠ 0 := by omega
    simp [handler, hpost, hts, h0, hlen]
  · cases htx : req.texts with
    | none => simp [handler, hpost, htx]
    | some ts =>
      by_cases h0 : ts.length = 0
      · simp [handler, hpost, htx, h0]
      · by_cases h50 : ts.length > 50
        · simp [handler, hpost, htx, h0, h50]
        · simp [handler, hpost, htx, h0, h50, h]
  · cases htx : req.texts with
    | none => simp [handler, hpost, htx]
    | some ts =>
      by_cases h0 : ts.length = 0
      · simp [handler, hpost, htx, h0]
      · by_cases h50 : ts.length > 50
        · simp [handler, hpost, htx, h0, h50]
        · simp [handler, hpost, htx, h0, h50, h]

/-- C8 witness: the empty texts list is rejected without a provider call. -/
theorem boundary_validation_witness :
    (("POST" : String) = "POST") ∧
    (∃ e, (handler (fun ts _ _ => Except.ok ts)
        ⟨"POST", some [], "en", "ko"⟩).1 = ApiResult.json 400 false none (some e)) ∧
    (handler (fun ts _ _ => Except.ok ts) ⟨"POST", some [], "en", "ko"⟩).2 =
      false :=
  ⟨rfl, boundary_validation (fun ts _ _ => Except.ok ts)
    ⟨"POST", some [], "en", "ko"⟩ rfl (Or.inr (Or.inl rfl))⟩

/-- C9 (counterexample): it is not true that every GET_STATUS response
reports `isTranslated` true exactly when at least one unit currently
displays translated text with `count` the number of such units — the
background service worker's handler hard-codes `isTranslated: false,
count: 0`, as shown with one translated unit. -/
theorem getStatus_counterexample :
    ¬ ∀ (r : StatusReceiver) (translatedUnits : ℕ) (isEnabled : Bool)
        (settings : TranslationSettings),
      (getStatusResponse r translatedUnits isEnabled settings).isTranslated =
          decide (0 < translatedUnits) ∧
        (getStatusResponse r translatedUnits isEnabled settings).count =
          translatedUnits := by
  intro h
  have hb := h .background 1 true ⟨.en, .ko, true⟩
  simp [getStatusResponse, backgroundGetStatusResponse] at hb

/-- C9 (amended): the content script's GET_STATUS response reports
`isTranslated` true exactly when at least one unit currently displays
translated text, `count` equal to the number of such units, and
`autoTranslate` equal to the content script's enabled flag; the background
service worker's GET_STATUS response is always
`isTranslated: false, count: 0` with the stored autoTranslate flag. -/
theorem getStatus_amended (translatedUnits : ℕ) (isEnabled : Bool)
    (settings : TranslationSettings) :
    ((getStatusResponse .content translatedUnits isEnabled settings).isTranslated =
        decide (0 < translatedUnits) ∧
      (getStatusResponse .content translatedUnits isEnabled settings).count =
        translatedUnits ∧
      (getStatusResponse .content translatedUnits isEnabled settings).autoTranslate =
        isEnabled) ∧
    getStatusResponse .background translatedUnits isEnabled settings =
      ⟨false, 0, settings.autoTranslate⟩ :=
  ⟨⟨rfl, rfl, rfl⟩, rfl⟩

/-- C10: every successful response of the remote translation handler
carries one entry per input text in input order, each entry's `original`
equal to the corresponding input; and every entry beyond the end of the
provider's translation list echoes its original text as the translation. -/
theorem success_data_shape
    (provider : List String → String → String → Except String (List String))
    (req : ApiRequest) (ts translations : List String)
    (hpost : req.method = "POST") (htx : req.texts = some ts)
    (h0 : ts.length ≠ 0) (h50 : ¬ ts.length > 50)
    (hsrc : req.sourceLang ≠ "") (htgt : req.targetLang ≠ "")
    (hprov : provider ts req.sourceLang req.targetLang = .ok translations) :
    (handler provider req).1 =
      ApiResult.json 200 true (some (buildData ts translations)) none ∧
    (buildData ts translations).length = ts.length ∧
    (∀ i : ℕ, ((buildData ts translations)[i]?).map TranslatedText.original =
      ts[i]?) ∧
    (∀ i : ℕ, translations.length ≤ i →
      ((buildData ts translations)[i]?).map TranslatedText.translated =
        ts[i]?) := by
  refine ⟨?_, buildDataAux_length translations ts 0, ?_, ?_⟩
  · simp [handler, hpost, htx, h0, h50, hsrc, htgt, hprov]
  · intro i
    rw [buildData, buildDataAux_getElem translations ts 0 i]
    cases ts[i]? <;> rfl
  · intro i hi
    rw [buildData, buildDataAux_getElem translations ts 0 i]
    have hnone : translations[i]? = none := by
      rw [List.getElem?_eq_none_iff]
      omega
    cases ts[i]? with
    | none => rfl
    | some t =>
      simp [orElseOriginal, hnone]

/-- C10 witness: two inputs with a single provider translation — the
second entry echoes its original. -/
theorem success_data_shape_witness :
    (handler (fun _ _ _ => Except.ok ["안녕"])
        ⟨"POST", some ["Hello", "World"], "en", "ko"⟩).1 =
      ApiResult.json 200 true (some (buildData ["Hello", "World"] ["안녕"])) none ∧
    (buildData ["Hello", "World"] ["안녕"]).length = 2 ∧
    ((buildData ["Hello", "World"] ["안녕"])[1]?).map TranslatedText.original =
      (["Hello", "World"] : List String)[1]? ∧
    ((buildData ["Hello", "World"] ["안녕"])[1]?).map TranslatedText.translated =
      (["Hello", "World"] : List String)[1]? := by
  have h := success_data_shape (fun _ _ _ => Except.ok ["안녕"])
    ⟨"POST", some ["Hello", "World"], "en", "ko"⟩ ["Hello", "World"] ["안녕"]
    rfl rfl (by decide) (by decide) (by decide) (by decide) rfl
  exact ⟨h.1, h.2.1, h.2.2.1 1, h.2.2.2 1 (by decide)⟩

end Plainly
